import Mathlib

/-!
Verification of the version-negotiation, exactly-one lookup, by-id/by-name
fallback and deletion-polling logic of the rust-openstack client library,
shallowly embedded in Lean 4.

Source mapping:
* `ApiVersion`, `ApiVersionRequest`, `ServiceInfo`, `ServiceInfo.pick_api_version`
  embed `src/service.rs` (the `ApiVersion` tuple struct itself lives in
  `common/apiversion.rs`, outside the provided sources; its lexicographic
  order on a (major, minor) pair is fixed by the spec and by the tests in
  `service.rs`).  Rust `u16` components are modelled as `Nat`: no arithmetic
  is performed on them, only comparisons, which agree.
* `one`, `if_not_found_then`, `waitFrom`/`wait` model `utils::one`,
  `utils::ResultExt::if_not_found_then` and the `DeletionWaiter` poll loop,
  whose defining files are not among the provided sources; they are modelled
  from the spec (sections 4.4, 4.5 and 7).
* `pick_compute_api_version`, `get_flavor`, `get_server` embed
  `src/compute/api.rs`, with the session abstracted to the lookup results it
  supplies.
-/

/-- API version, a (major, minor) pair; embeds the Rust tuple struct
`ApiVersion(u16, u16)` with its derived lexicographic `Ord`. -/
structure ApiVersion where
  major : Nat
  minor : Nat
deriving DecidableEq, Repr

/-- Lexicographic comparison on (major, minor), the derived Rust `Ord`. -/
def ApiVersion.le (a b : ApiVersion) : Bool :=
  decide (a.major < b.major) || (decide (a.major = b.major) && decide (a.minor ≤ b.minor))

/-- A request for an API version; embeds `ApiVersionRequest` from the library root. -/
inductive ApiVersionRequest where
  | Minimum : ApiVersionRequest
  | Latest : ApiVersionRequest
  | Exact : ApiVersion → ApiVersionRequest
  | Choice : List ApiVersion → ApiVersionRequest

/-- Information about an API endpoint; embeds `ServiceInfo` from `src/service.rs`. -/
structure ServiceInfo where
  root_url : String
  current_version : Option ApiVersion
  minimum_version : Option ApiVersion

/-- Fold step of Rust `Iterator::max`: keep the accumulator unless the next
element compares greater or equal (so the last of several maxima wins). -/
def iterMaxFrom (m : ApiVersion) : List ApiVersion → ApiVersion
  | [] => m
  | x :: xs => iterMaxFrom (if ApiVersion.le m x then x else m) xs

/-- Rust `Iterator::max` over a list of versions: `none` on an empty
sequence, otherwise the maximum element. -/
def iterMax : List ApiVersion → Option ApiVersion
  | [] => none
  | x :: xs => some (iterMaxFrom x xs)

/-- Embeds `ServiceInfo::pick_api_version` from `src/service.rs` lines 181-212:
`Minimum` and `Latest` return the corresponding field verbatim; `Exact`
requires the current version and checks the range (or exact equality when no
minimum is advertised); `Choice` returns `none` on an empty candidate list,
otherwise the maximum in-range candidate (known minimum) or the first
candidate equal to the current version (unknown minimum). -/
def ServiceInfo.pick_api_version (self : ServiceInfo) (request : ApiVersionRequest) :
    Option ApiVersion :=
  match request with
  | ApiVersionRequest.Minimum => self.minimum_version
  | ApiVersionRequest.Latest => self.current_version
  | ApiVersionRequest.Exact req =>
      self.current_version.bind (fun mx =>
        match self.minimum_version with
        | some mn =>
            if ApiVersion.le mn req && ApiVersion.le req mx then some req else none
        | none => if req = mx then some req else none)
  | ApiVersionRequest.Choice vec =>
      if vec.isEmpty then
        none
      else
        self.current_version.bind (fun mx =>
          match self.minimum_version with
          | some mn =>
              iterMax (vec.filter (fun x => ApiVersion.le mn x && ApiVersion.le x mx))
          | none => vec.find? (fun x => decide (x = mx)))

/-! Order lemmas for `ApiVersion.le`. -/

theorem ApiVersion.le_iff (a b : ApiVersion) :
    ApiVersion.le a b = true ↔
      a.major < b.major ∨ (a.major = b.major ∧ a.minor ≤ b.minor) := by
  simp [ApiVersion.le]

theorem ApiVersion.le_refl (a : ApiVersion) : ApiVersion.le a a = true := by
  simp [ApiVersion.le_iff]

theorem ApiVersion.le_trans {a b c : ApiVersion}
    (hab : ApiVersion.le a b = true) (hbc : ApiVersion.le b c = true) :
    ApiVersion.le a c = true := by
  rw [ApiVersion.le_iff] at hab hbc ⊢
  omega

theorem ApiVersion.le_total (a b : ApiVersion) :
    ApiVersion.le a b = true ∨ ApiVersion.le b a = true := by
  rw [ApiVersion.le_iff, ApiVersion.le_iff]
  omega

theorem ApiVersion.le_antisymm {a b : ApiVersion}
    (hab : ApiVersion.le a b = true) (hba : ApiVersion.le b a = true) :
    a = b := by
  rw [ApiVersion.le_iff] at hab hba
  cases a; cases b
  simp_all
  omega

/-! Lemmas about `iterMaxFrom` and `iterMax`. -/

theorem iterMaxFrom_eq_or_mem (xs : List ApiVersion) (m : ApiVersion) :
    iterMaxFrom m xs = m ∨ iterMaxFrom m xs ∈ xs := by
  induction xs generalizing m with
  | nil => exact Or.inl rfl
  | cons x xs ih =>
    simp only [iterMaxFrom]
    by_cases hle : ApiVersion.le m x = true
    · rw [if_pos hle]
      rcases ih x with h | h
      · rw [h]; exact Or.inr (List.mem_cons_self x xs)
      · exact Or.inr (List.mem_cons_of_mem x h)
    · rw [if_neg hle]
      rcases ih m with h | h
      · exact Or.inl h
      · exact Or.inr (List.mem_cons_of_mem x h)

theorem le_iterMaxFrom (xs : List ApiVersion) (m : ApiVersion) :
    ApiVersion.le m (iterMaxFrom m xs) = true := by
  induction xs generalizing m with
  | nil => exact ApiVersion.le_refl m
  | cons x xs ih =>
    simp only [iterMaxFrom]
    have hstep : ApiVersion.le m (if ApiVersion.le m x then x else m) = true := by
      by_cases hle : ApiVersion.le m x = true
      · rw [if_pos hle]; exact hle
      · rw [if_neg hle]; exact ApiVersion.le_refl m
    exact ApiVersion.le_trans hstep (ih _)

theorem iterMaxFrom_ub (xs : List ApiVersion) (m y : ApiVersion) (hy : y ∈ xs) :
    ApiVersion.le y (iterMaxFrom m xs) = true := by
  induction xs generalizing m with
  | nil => cases hy
  | cons x xs ih =>
    simp only [iterMaxFrom]
    rcases List.mem_cons.mp hy with h | h
    · subst h
      have hstep : ApiVersion.le y (if ApiVersion.le m y then y else m) = true := by
        by_cases hle : ApiVersion.le m y = true
        · rw [if_pos hle]; exact ApiVersion.le_refl y
        · rw [if_neg hle]
          rcases ApiVersion.le_total y m with h2 | h2
          · exact h2
          · exact absurd h2 hle
      exact ApiVersion.le_trans hstep (le_iterMaxFrom xs _)
    · exact ih _ h

theorem iterMax_mem {l : List ApiVersion} {m : ApiVersion}
    (h : iterMax l = some m) : m ∈ l := by
  cases l with
  | nil => cases h
  | cons x xs =>
    simp only [iterMax, Option.some_inj] at h
    subst h
    rcases iterMaxFrom_eq_or_mem xs x with h2 | h2
    · rw [h2]; exact List.mem_cons_self x xs
    · exact List.mem_cons_of_mem x h2

theorem iterMax_ub {l : List ApiVersion} {m : ApiVersion}
    (h : iterMax l = some m) (y : ApiVersion) (hy : y ∈ l) :
    ApiVersion.le y m = true := by
  cases l with
  | nil => cases h
  | cons x xs =>
    simp only [iterMax, Option.some_inj] at h
    subst h
    rcases List.mem_cons.mp hy with h2 | h2
    · rw [h2]; exact le_iterMaxFrom xs x
    · exact iterMaxFrom_ub xs x y h2

theorem iterMax_eq_none_iff (l : List ApiVersion) :
    iterMax l = none ↔ l = [] := by
  cases l with
  | nil => simp [iterMax]
  | cons x xs => simp [iterMax]

/-! Claim theorems about `pick_api_version`. -/

/-- C4: for every `ServiceInfo` (current and minimum versions present or not),
`pick_api_version` on `Choice` of an empty candidate list returns `none`. -/
theorem pick_choice_empty (info : ServiceInfo) :
    info.pick_api_version (ApiVersionRequest.Choice []) = none := rfl

/-- C5: for every `ServiceInfo`, `pick_api_version` on `Minimum` returns
`minimum_version` verbatim and on `Latest` returns `current_version`
verbatim; an absent field propagates as `none`, not an error. -/
theorem pick_minimum_latest_verbatim (info : ServiceInfo) :
    info.pick_api_version ApiVersionRequest.Minimum = info.minimum_version ∧
    info.pick_api_version ApiVersionRequest.Latest = info.current_version :=
  ⟨rfl, rfl⟩

/-- C8: `pick_api_version` is a pure, deterministic function of
`(info, request)`: two calls with identical inputs return identical
outputs, and the `ServiceInfo` argument is immutable in the embedding. -/
theorem pick_api_version_deterministic (info : ServiceInfo)
    (request : ApiVersionRequest) :
    info.pick_api_version request = info.pick_api_version request := rfl

/-- C3: `pick_api_version` on `Exact v` returns `v` when the current version
is present as `max` and either the minimum is present as `min` with
`min ≤ v ≤ max`, or the minimum is absent and `v = max`; in every other
case (including an absent current version) it returns `none`, and it never
returns a value other than `v`. -/
theorem pick_exact_spec (info : ServiceInfo) (v : ApiVersion) :
    (∀ mx mn, info.current_version = some mx → info.minimum_version = some mn →
      (info.pick_api_version (ApiVersionRequest.Exact v) = some v ↔
        (ApiVersion.le mn v = true ∧ ApiVersion.le v mx = true))) ∧
    (∀ mx, info.current_version = some mx → info.minimum_version = none →
      (info.pick_api_version (ApiVersionRequest.Exact v) = some v ↔ v = mx)) ∧
    (info.current_version = none →
      info.pick_api_version (ApiVersionRequest.Exact v) = none) ∧
    (∀ w, info.pick_api_version (ApiVersionRequest.Exact v) = some w → w = v) := by
  refine ⟨?_, ?_, ?_, ?_⟩
  · intro mx mn hcur hmin
    simp only [ServiceInfo.pick_api_version, hcur, hmin, Option.some_bind]
    by_cases hcond : (ApiVersion.le mn v && ApiVersion.le v mx) = true
    · rw [if_pos hcond]
      simp only [Bool.and_eq_true] at hcond
      simp [hcond]
    · rw [if_neg hcond]
      simp only [Bool.and_eq_true] at hcond
      simp only [not_and] at hcond
      constructor
      · intro h; cases h
      · intro ⟨h1, h2⟩; exact absurd h2 (hcond h1)
  · intro mx hcur hmin
    simp only [ServiceInfo.pick_api_version, hcur, hmin, Option.some_bind]
    by_cases hv : v = mx
    · rw [if_pos hv]; simp [hv]
    · rw [if_neg hv]
      constructor
      · intro h; cases h
      · intro h; exact absurd h hv
  · intro hcur
    simp [ServiceInfo.pick_api_version, hcur]
  · intro w h
    simp only [ServiceInfo.pick_api_version] at h
    cases hcur : info.current_version with
    | none => rw [hcur] at h; cases h
    | some mx =>
      rw [hcur, Option.some_bind] at h
      cases hmin : info.minimum_version with
      | some mn =>
        simp only [hmin] at h
        by_cases hcond : (ApiVersion.le mn v && ApiVersion.le v mx) = true
        · rw [if_pos hcond] at h; exact (Option.some_inj.mp h).symm
        · rw [if_neg hcond] at h; cases h
      | none =>
        simp only [hmin] at h
        by_cases hv : v = mx
        · rw [if_pos hv] at h; exact (Option.some_inj.mp h).symm
        · rw [if_neg hv] at h; cases h

/-- Witness for C3 at the concrete service range 2.1 .. 2.24 and request 2.22,
mirroring the `test_pick_version_exact` unit test of the source. -/
theorem pick_exact_spec_witness :
    ServiceInfo.pick_api_version
      ⟨"http://127.0.0.1", some ⟨2, 24⟩, some ⟨2, 1⟩⟩
      (ApiVersionRequest.Exact ⟨2, 22⟩) = some ⟨2, 22⟩ :=
  ((pick_exact_spec ⟨"http://127.0.0.1", some ⟨2, 24⟩, some ⟨2, 1⟩⟩ ⟨2, 22⟩).1
    ⟨2, 24⟩ ⟨2, 1⟩ rfl rfl).mpr (by decide)

/-- C1: with a known current version `mx` and known minimum `mn`, `Choice`
over a non-empty candidate list returns exactly the maximum candidate lying
in `[mn, mx]`, and `none` when no candidate lies in the range. -/
theorem pick_choice_with_min_spec (info : ServiceInfo) (mn mx : ApiVersion)
    (hcur : info.current_version = some mx) (hmin : info.minimum_version = some mn)
    (c : List ApiVersion) (hc : c ≠ []) :
    (∀ v, info.pick_api_version (ApiVersionRequest.Choice c) = some v ↔
      (v ∈ c ∧ ApiVersion.le mn v = true ∧ ApiVersion.le v mx = true ∧
        ∀ y ∈ c, ApiVersion.le mn y = true → ApiVersion.le y mx = true →
          ApiVersion.le y v = true)) ∧
    (info.pick_api_version (ApiVersionRequest.Choice c) = none ↔
      ∀ y ∈ c, ¬(ApiVersion.le mn y = true ∧ ApiVersion.le y mx = true)) := by
  have hne : c.isEmpty = false := by
    cases c with
    | nil => exact absurd rfl hc
    | cons x xs => rfl
  have hpick : info.pick_api_version (ApiVersionRequest.Choice c) =
      iterMax (c.filter (fun x => ApiVersion.le mn x && ApiVersion.le x mx)) := by
    simp [ServiceInfo.pick_api_version, hne, hcur, hmin]
  rw [hpick]
  constructor
  · intro v
    constructor
    · intro h
      have hvl := iterMax_mem h
      rw [List.mem_filter] at hvl
      obtain ⟨hvc, hvp⟩ := hvl
      rw [Bool.and_eq_true] at hvp
      refine ⟨hvc, hvp.1, hvp.2, ?_⟩
      intro y hy hy1 hy2
      exact iterMax_ub h y (List.mem_filter.mpr ⟨hy, by rw [Bool.and_eq_true]; exact ⟨hy1, hy2⟩⟩)
    · intro ⟨hvc, hv1, hv2, hub⟩
      have hvl : v ∈ c.filter (fun x => ApiVersion.le mn x && ApiVersion.le x mx) :=
        List.mem_filter.mpr ⟨hvc, by rw [Bool.and_eq_true]; exact ⟨hv1, hv2⟩⟩
      cases hl : iterMax (c.filter (fun x => ApiVersion.le mn x && ApiVersion.le x mx)) with
      | none =>
        rw [iterMax_eq_none_iff] at hl
        rw [hl] at hvl
        cases hvl
      | some m =>
        have hm := iterMax_mem hl
        rw [List.mem_filter] at hm
        obtain ⟨hmc, hmp⟩ := hm
        rw [Bool.and_eq_true] at hmp
        have h1 : ApiVersion.le v m = true := iterMax_ub hl v hvl
        have h2 : ApiVersion.le m v = true := hub m hmc hmp.1 hmp.2
        rw [ApiVersion.le_antisymm h1 h2]
  · rw [iterMax_eq_none_iff, List.filter_eq_nil_iff]
    constructor
    · intro h y hy ⟨hy1, hy2⟩
      exact h y hy (by rw [Bool.and_eq_true]; exact ⟨hy1, hy2⟩)
    · intro h y hy hp
      rw [Bool.and_eq_true] at hp
      exact h y hy hp

/-- Witness for C1 at the concrete inputs of the `test_pick_version_choice`
unit test: range 2.1 .. 2.24 over candidates [2.0, 2.2, 2.22, 2.25] picks 2.22. -/
theorem pick_choice_with_min_spec_witness :
    ServiceInfo.pick_api_version
      ⟨"http://127.0.0.1", some ⟨2, 24⟩, some ⟨2, 1⟩⟩
      (ApiVersionRequest.Choice [⟨2, 0⟩, ⟨2, 2⟩, ⟨2, 22⟩, ⟨2, 25⟩]) = some ⟨2, 22⟩ :=
  ((pick_choice_with_min_spec ⟨"http://127.0.0.1", some ⟨2, 24⟩, some ⟨2, 1⟩⟩
      ⟨2, 1⟩ ⟨2, 24⟩ rfl rfl [⟨2, 0⟩, ⟨2, 2⟩, ⟨2, 22⟩, ⟨2, 25⟩] (by decide)).1 ⟨2, 22⟩).mpr
    (by decide)

/-- C2: with a known current version `mx` and an absent minimum, `Choice`
over a non-empty candidate list returns the first candidate equal to `mx`
(hence the value `mx` whenever any candidate equals it, even when larger
candidates are present), and `none` when no candidate equals `mx`. -/
theorem pick_choice_no_min_spec (info : ServiceInfo) (mx : ApiVersion)
    (hcur : info.current_version = some mx) (hmin : info.minimum_version = none)
    (c : List ApiVersion) (hc : c ≠ []) :
    (mx ∈ c → info.pick_api_version (ApiVersionRequest.Choice c) = some mx) ∧
    (mx ∉ c → info.pick_api_version (ApiVersionRequest.Choice c) = none) ∧
    (∀ v, info.pick_api_version (ApiVersionRequest.Choice c) = some v → v = mx) := by
  have hne : c.isEmpty = false := by
    cases c with
    | nil => exact absurd rfl hc
    | cons x xs => rfl
  have hpick : info.pick_api_version (ApiVersionRequest.Choice c) =
      c.find? (fun x => decide (x = mx)) := by
    simp [ServiceInfo.pick_api_version, hne, hcur, hmin]
  rw [hpick]
  refine ⟨?_, ?_, ?_⟩
  · intro hmem
    cases hfind : c.find? (fun x => decide (x = mx)) with
    | none =>
      rw [List.find?_eq_none] at hfind
      exact absurd (by simp : (fun x => decide (x = mx)) mx = true) (hfind mx hmem)
    | some v =>
      have := List.find?_some hfind
      simp only [decide_eq_true_eq] at this
      rw [this]
  · intro hmem
    rw [List.find?_eq_none]
    intro x hx hpx
    simp only [decide_eq_true_eq] at hpx
    exact hmem (hpx ▸ hx)
  · intro v hfind
    have := List.find?_some hfind
    simpa using this

/-- Witness for C2 at the concrete inputs of the
`test_pick_version_choice_current_only` unit test: current version 2.24, no
minimum, candidates [2.0, 2.2, 2.24, 2.25] pick 2.24. -/
theorem pick_choice_no_min_spec_witness :
    ServiceInfo.pick_api_version
      ⟨"http://127.0.0.1", some ⟨2, 24⟩, none⟩
      (ApiVersionRequest.Choice [⟨2, 0⟩, ⟨2, 2⟩, ⟨2, 24⟩, ⟨2, 25⟩]) = some ⟨2, 24⟩ :=
  (pick_choice_no_min_spec ⟨"http://127.0.0.1", some ⟨2, 24⟩, none⟩
      ⟨2, 24⟩ rfl rfl [⟨2, 0⟩, ⟨2, 2⟩, ⟨2, 24⟩, ⟨2, 25⟩] (by decide)).1 (by decide)

/-! Error model and the exactly-one filter, the by-id/by-name fallback and
the deletion poll loop. -/

/-- Error kinds produced by the core, from spec section 7. -/
inductive ErrorKind where
  | VersionMismatch : ErrorKind
  | NotFound : ErrorKind
  | AmbiguousResult : ErrorKind
  | Timeout : ErrorKind
  | Transport : ErrorKind
deriving DecidableEq, Repr

/-- An error: a kind together with its message. -/
structure Error where
  kind : ErrorKind
  message : String
deriving DecidableEq, Repr

/-- Modelled from the spec: `utils::one` (the `ExactlyOneFilter` of spec
section 4.4), whose defining file `src/utils.rs` is not among the provided
sources; callers are `get_flavor_by_name` and `get_server_by_name` in
`src/compute/api.rs`.  Fails with `NotFound(not_found_message)` on zero
candidates, `AmbiguousResult(too_many_message)` on more than one, and
returns the single candidate otherwise. -/
def one {T : Type} (candidates : List T)
    (not_found_message too_many_message : String) : Except Error T :=
  match candidates with
  | [] => Except.error ⟨ErrorKind.NotFound, not_found_message⟩
  | [x] => Except.ok x
  | _ :: _ :: _ => Except.error ⟨ErrorKind.AmbiguousResult, too_many_message⟩

/-- C6: the exactly-one filter fails with `NotFound` carrying the supplied
not-found message on an empty candidate sequence, fails with
`AmbiguousResult` carrying the supplied too-many message on a sequence of
more than one element, and returns the single element of a one-element
sequence. -/
theorem one_spec {T : Type} (candidates : List T) (nf tm : String) :
    (candidates = [] →
      one candidates nf tm = Except.error ⟨ErrorKind.NotFound, nf⟩) ∧
    (∀ x, candidates = [x] → one candidates nf tm = Except.ok x) ∧
    (2 ≤ candidates.length →
      one candidates nf tm = Except.error ⟨ErrorKind.AmbiguousResult, tm⟩) := by
  refine ⟨?_, ?_, ?_⟩
  · intro h; subst h; rfl
  · intro x h; subst h; rfl
  · intro h
    match candidates with
    | [] => simp at h
    | [x] => simp at h
    | x :: y :: rest => rfl

/-- Witness for C6: the filter on the one-element list [3] returns 3. -/
theorem one_spec_witness : one [(3 : Nat)] "missing" "too many" = Except.ok 3 :=
  (one_spec [(3 : Nat)] "missing" "too many").2.1 3 rfl

/-- Outcome of one status-check call of the deletion waiter, from spec
sections 4.5 and 7: the lookup signals not-found (resource gone, condition
met), still returns the resource (not yet), or fails unexpectedly. -/
inductive CheckOutcome where
  | notFoundSignal : CheckOutcome
  | stillPresent : CheckOutcome
  | failure : Error → CheckOutcome

/-- The timeout error the waiter fails with when the deadline passes. -/
def waiterTimeoutError : Error :=
  ⟨ErrorKind.Timeout, "deadline passed before the condition was met"⟩

/-- Modelled from the spec: the poll loop of `PollingWaiter.wait`
(`DeletionWaiter` in `src/common/waiter.rs`, not among the provided
sources; re-exported by `src/common/mod.rs`).  `check i` is the outcome of
the i-th status check; the deadline and poll interval are abstracted into
`fuel`, the number of checks that fit before the deadline.  The loop checks,
returns success on the not-found signal, surfaces any other error
immediately, otherwise sleeps and repeats; exhausted fuel is the deadline
passing, a `Timeout` failure. -/
def waitFrom (check : Nat → CheckOutcome) (i : Nat) : Nat → Except Error Unit
  | 0 => Except.error waiterTimeoutError
  | fuel + 1 =>
    match check i with
    | CheckOutcome.notFoundSignal => Except.ok ()
    | CheckOutcome.failure e => Except.error e
    | CheckOutcome.stillPresent => waitFrom check (i + 1) fuel

/-- Modelled from the spec: `PollingWaiter.wait` started at the first check. -/
def wait (check : Nat → CheckOutcome) (fuel : Nat) : Except Error Unit :=
  waitFrom check 0 fuel

theorem waitFrom_met (check : Nat → CheckOutcome) (k : Nat) :
    ∀ (fuel i : Nat), k < fuel → check (i + k) = CheckOutcome.notFoundSignal →
      (∀ j, j < k → check (i + j) = CheckOutcome.stillPresent) →
      waitFrom check i fuel = Except.ok () := by
  induction k with
  | zero =>
    intro fuel i hk hmet _
    match fuel, hk with
    | fuel + 1, _ =>
      simp only [waitFrom]
      rw [show i + 0 = i from rfl] at hmet
      rw [hmet]
  | succ k ih =>
    intro fuel i hk hmet hpre
    match fuel, hk with
    | fuel + 1, hk =>
      simp only [waitFrom]
      have h0 : check i = CheckOutcome.stillPresent := by
        have := hpre 0 (Nat.succ_pos k)
        rwa [show i + 0 = i from rfl] at this
      rw [h0]
      refine ih fuel (i + 1) (by omega) ?_ ?_
      · rw [show i + 1 + k = i + (k + 1) from by omega]; exact hmet
      · intro j hj
        rw [show i + 1 + j = i + (j + 1) from by omega]
        exact hpre (j + 1) (by omega)

theorem waitFrom_failure (check : Nat → CheckOutcome) (k : Nat) (e : Error) :
    ∀ (fuel i : Nat), k < fuel → check (i + k) = CheckOutcome.failure e →
      (∀ j, j < k → check (i + j) = CheckOutcome.stillPresent) →
      waitFrom check i fuel = Except.error e := by
  induction k with
  | zero =>
    intro fuel i hk hfail _
    match fuel, hk with
    | fuel + 1, _ =>
      simp only [waitFrom]
      rw [show i + 0 = i from rfl] at hfail
      rw [hfail]
  | succ k ih =>
    intro fuel i hk hfail hpre
    match fuel, hk with
    | fuel + 1, hk =>
      simp only [waitFrom]
      have h0 : check i = CheckOutcome.stillPresent := by
        have := hpre 0 (Nat.succ_pos k)
        rwa [show i + 0 = i from rfl] at this
      rw [h0]
      refine ih fuel (i + 1) (by omega) ?_ ?_
      · rw [show i + 1 + k = i + (k + 1) from by omega]; exact hfail
      · intro j hj
        rw [show i + 1 + j = i + (j + 1) from by omega]
        exact hpre (j + 1) (by omega)

theorem waitFrom_timeout (check : Nat → CheckOutcome) :
    ∀ (fuel i : Nat), (∀ j, j < fuel → check (i + j) = CheckOutcome.stillPresent) →
      waitFrom check i fuel = Except.error waiterTimeoutError := by
  intro fuel
  induction fuel with
  | zero => intro i _; rfl
  | succ fuel ih =>
    intro i hall
    simp only [waitFrom]
    have h0 : check i = CheckOutcome.stillPresent := by
      have := hall 0 (Nat.succ_pos fuel)
      rwa [show i + 0 = i from rfl] at this
    rw [h0]
    refine ih (i + 1) ?_
    intro j hj
    rw [show i + 1 + j = i + (j + 1) from by omega]
    exact hall (j + 1) (by omega)

/-- C7: for every run of the deletion waiter — if some check reports the
not-found signal (all earlier checks having reported the resource still
present) before the deadline, the wait returns success; if some check
reports an unexpected error under the same circumstances, that error is
surfaced as the result; and if every check before the deadline reports the
resource still present, the wait fails with a `Timeout` error. -/
theorem wait_spec (check : Nat → CheckOutcome) (fuel : Nat) :
    (∀ k, k < fuel → check k = CheckOutcome.notFoundSignal →
      (∀ j, j < k → check j = CheckOutcome.stillPresent) →
      wait check fuel = Except.ok ()) ∧
    (∀ k e, k < fuel → check k = CheckOutcome.failure e →
      (∀ j, j < k → check j = CheckOutcome.stillPresent) →
      wait check fuel = Except.error e) ∧
    ((∀ j, j < fuel → check j = CheckOutcome.stillPresent) →
      ∃ e, wait check fuel = Except.error e ∧ e.kind = ErrorKind.Timeout) := by
  refine ⟨?_, ?_, ?_⟩
  · intro k hk hmet hpre
    exact waitFrom_met check k fuel 0 hk
      (by rw [show 0 + k = k from by omega]; exact hmet)
      (fun j hj => by rw [show 0 + j = j from by omega]; exact hpre j hj)
  · intro k e hk hfail hpre
    exact waitFrom_failure check k e fuel 0 hk
      (by rw [show 0 + k = k from by omega]; exact hfail)
      (fun j hj => by rw [show 0 + j = j from by omega]; exact hpre j hj)
  · intro hall
    refine ⟨waiterTimeoutError, ?_, rfl⟩
    exact waitFrom_timeout check fuel 0
      (fun j hj => by rw [show 0 + j = j from by omega]; exact hall j hj)

/-- Witness for C7: a check that finds the resource still present twice and
then observes it gone succeeds within a deadline worth five checks. -/
theorem wait_spec_witness :
    wait (fun i => if i < 2 then CheckOutcome.stillPresent
                   else CheckOutcome.notFoundSignal) 5 = Except.ok () :=
  (wait_spec (fun i => if i < 2 then CheckOutcome.stillPresent
                       else CheckOutcome.notFoundSignal) 5).1
    2 (by omega) (by simp)
    (fun j hj => by simp [hj])

/-- Modelled from the spec: `utils::ResultExt::if_not_found_then` (from
`src/utils.rs`, not among the provided sources), the combinator used by
`get_flavor` and `get_server`: keep a successful result, run the fallback
when the error is a `NotFound` condition, and return any other error
unchanged. -/
def if_not_found_then {T : Type} (result : Except Error T)
    (fallback : Unit → Except Error T) : Except Error T :=
  match result with
  | Except.ok v => Except.ok v
  | Except.error e =>
      if e.kind = ErrorKind.NotFound then fallback () else Except.error e

/-- The lookups a compute session supplies to `get_flavor` and `get_server`;
abstracts the HTTP layer behind `get_flavor_by_id`, `get_flavor_by_name`,
`get_server_by_id` and `get_server_by_name` of `src/compute/api.rs`. -/
structure ComputeSession (Flavor Server : Type) where
  get_flavor_by_id : String → Except Error Flavor
  get_flavor_by_name : String → Except Error Flavor
  get_server_by_id : String → Except Error Server
  get_server_by_name : String → Except Error Server

/-- Embeds `get_flavor` from `src/compute/api.rs` lines 157-160: look up by
ID, falling back to the by-name lookup only on a not-found error. -/
def get_flavor {F S : Type} (session : ComputeSession F S)
    (id_or_name : String) : Except Error F :=
  if_not_found_then (session.get_flavor_by_id id_or_name)
    (fun _ => session.get_flavor_by_name id_or_name)

/-- Embeds `get_server` from `src/compute/api.rs` lines 204-207: look up by
ID, falling back to the by-name lookup only on a not-found error. -/
def get_server {F S : Type} (session : ComputeSession F S)
    (id_or_name : String) : Except Error S :=
  if_not_found_then (session.get_server_by_id id_or_name)
    (fun _ => session.get_server_by_name id_or_name)

/-- C9: `get_flavor` (and likewise `get_server`) returns a by-ID success
unchanged without consulting the by-name lookup, falls through to the
by-name lookup exactly when the by-ID lookup fails with a `NotFound`
condition, and returns any other by-ID failure unchanged. -/
theorem get_by_id_or_name_spec {F S : Type} (session : ComputeSession F S)
    (s : String) :
    (∀ v, session.get_flavor_by_id s = Except.ok v →
      get_flavor session s = Except.ok v) ∧
    (∀ e, session.get_flavor_by_id s = Except.error e →
      e.kind = ErrorKind.NotFound →
      get_flavor session s = session.get_flavor_by_name s) ∧
    (∀ e, session.get_flavor_by_id s = Except.error e →
      e.kind ≠ ErrorKind.NotFound →
      get_flavor session s = Except.error e) ∧
    (∀ v, session.get_server_by_id s = Except.ok v →
      get_server session s = Except.ok v) ∧
    (∀ e, session.get_server_by_id s = Except.error e →
      e.kind = ErrorKind.NotFound →
      get_server session s = session.get_server_by_name s) ∧
    (∀ e, session.get_server_by_id s = Except.error e →
      e.kind ≠ ErrorKind.NotFound →
      get_server session s = Except.error e) := by
  refine ⟨?_, ?_, ?_, ?_, ?_, ?_⟩
  · intro v h; simp [get_flavor, if_not_found_then, h]
  · intro e h hk; simp [get_flavor, if_not_found_then, h, hk]
  · intro e h hk; simp [get_flavor, if_not_found_then, h, hk]
  · intro v h; simp [get_server, if_not_found_then, h]
  · intro e h hk; simp [get_server, if_not_found_then, h, hk]
  · intro e h hk; simp [get_server, if_not_found_then, h, hk]

/-- Witness for C9: a session whose by-ID flavor lookup reports not-found
falls through to the by-name lookup. -/
theorem get_by_id_or_name_spec_witness :
    get_flavor
      (ComputeSession.mk
        (fun _ => Except.error ⟨ErrorKind.NotFound, "no such flavor"⟩)
        (fun _ => Except.ok (7 : Nat))
        (fun _ => Except.ok (0 : Nat))
        (fun _ => Except.ok (0 : Nat)))
      "m1.small" = Except.ok 7 :=
  (get_by_id_or_name_spec
      (ComputeSession.mk
        (fun _ => Except.error ⟨ErrorKind.NotFound, "no such flavor"⟩)
        (fun _ => Except.ok (7 : Nat))
        (fun _ => Except.ok (0 : Nat))
        (fun _ => Except.ok (0 : Nat)))
      "m1.small").2.1 ⟨ErrorKind.NotFound, "no such flavor"⟩ rfl rfl

/-- The service information the newer session layer hands to
`pick_compute_api_version`; `supports_api_version` (defined in
`src/session.rs`, not among the provided sources) is abstracted as the
membership predicate it computes. -/
structure SessionServiceInfo where
  supports_api_version : ApiVersion → Bool

/-- Embeds `pick_compute_api_version` from `src/compute/api.rs` lines 60-70:
resolve the compute `ServiceInfo` (propagating its error), then return the
maximum of the supported candidates, `none` when there is none. -/
def pick_compute_api_version (info_result : Except Error SessionServiceInfo)
    (versions : List ApiVersion) : Except Error (Option ApiVersion) :=
  match info_result with
  | Except.error e => Except.error e
  | Except.ok info =>
      Except.ok (iterMax (versions.filter info.supports_api_version))

/-- C10: when the compute `ServiceInfo` resolves successfully,
`pick_compute_api_version` returns `some` of the maximum supported
candidate, and returns `none` — not an error — when no candidate is
supported, the empty candidate list included. -/
theorem pick_compute_api_version_spec
    (info_result : Except Error SessionServiceInfo) (info : SessionServiceInfo)
    (hok : info_result = Except.ok info) (versions : List ApiVersion) :
    (∀ v, pick_compute_api_version info_result versions = Except.ok (some v) ↔
      (v ∈ versions ∧ info.supports_api_version v = true ∧
        ∀ y ∈ versions, info.supports_api_version y = true →
          ApiVersion.le y v = true)) ∧
    (pick_compute_api_version info_result versions = Except.ok none ↔
      ∀ y ∈ versions, info.supports_api_version y = false) := by
  subst hok
  simp only [pick_compute_api_version]
  constructor
  · intro v
    constructor
    · intro h
      simp only [Except.ok.injEq] at h
      have hvl := iterMax_mem h
      rw [List.mem_filter] at hvl
      refine ⟨hvl.1, hvl.2, ?_⟩
      intro y hy hsy
      exact iterMax_ub h y (List.mem_filter.mpr ⟨hy, hsy⟩)
    · intro ⟨hvc, hsv, hub⟩
      have hvl : v ∈ versions.filter info.supports_api_version :=
        List.mem_filter.mpr ⟨hvc, hsv⟩
      cases hl : iterMax (versions.filter info.supports_api_version) with
      | none =>
        rw [iterMax_eq_none_iff] at hl
        rw [hl] at hvl
        cases hvl
      | some m =>
        have hm := iterMax_mem hl
        rw [List.mem_filter] at hm
        have h1 : ApiVersion.le v m = true := iterMax_ub hl v hvl
        have h2 : ApiVersion.le m v = true := hub m hm.1 hm.2
        rw [ApiVersion.le_antisymm h1 h2]
  · simp only [Except.ok.injEq]
    rw [iterMax_eq_none_iff, List.filter_eq_nil_iff]
    constructor
    · intro h y hy
      exact Bool.eq_false_iff.mpr (h y hy)
    · intro h y hy
      rw [h y hy]
      exact Bool.false_ne_true

/-- Witness for C10: with a service supporting exactly versions up to 2.60,
the candidates [2.55, 2.61] yield 2.55, the maximum supported one. -/
theorem pick_compute_api_version_spec_witness :
    pick_compute_api_version
      (Except.ok ⟨fun v => ApiVersion.le v ⟨2, 60⟩⟩)
      [⟨2, 55⟩, ⟨2, 61⟩] = Except.ok (some ⟨2, 55⟩) :=
  ((pick_compute_api_version_spec
      (Except.ok ⟨fun v => ApiVersion.le v ⟨2, 60⟩⟩)
      ⟨fun v => ApiVersion.le v ⟨2, 60⟩⟩ rfl [⟨2, 55⟩, ⟨2, 61⟩]).1 ⟨2, 55⟩).mpr
    (by decide)
